import Mathlib

/-!
Verification of the word/token alignment core of
`evaluate/evaluator/token_classification.py`
(`TokenClassificationEvaluator`): offset reconstruction
(`words_to_offsets`), label alignment (`predictions_processor`),
data preparation (`prepare_data`) and the caching orchestration of
`compute`.

Python integers are embedded as `Int` (offsets can be `-1` for a
zero-length first word), indexing errors (`IndexError` / `KeyError`)
as `Option` / `Except`, and dictionaries with fixed keys as
structures.  The integer token cursor `token_index` into the fixed
prediction list is embedded as the suffix of the prediction list
that starts at the cursor: `prediction[token_index]` is the head of
the suffix, advancing the cursor drops the head, and
`prediction[token_index]` raising `IndexError` (cursor at or past
the end of the list) is the empty suffix.
-/

namespace TokenClassification

/-- One sub-token prediction of the pipeline: the dict
`{"entity": ..., "score": ..., "index": ..., "word": ..., "start": ..., "end": ...}`.
The code under verification only ever reads the keys `"start"` and
`"entity"`; the remaining keys are carried along (the float-valued
score is modelled opaquely, as an integer, since no code under
verification reads it). -/
structure Pred where
  start : Int
  entity : String
  endPos : Int := 0
  score : Int := 0
  word : String := ""
  deriving DecidableEq, Repr

/-- The loop body of `words_to_offsets` (lines 158–166): running
cursor `start`, per word emit `(start, end)` with
`end = start + len(word) - 1` and advance
`start = end + len(join_by) + 1`. -/
def words_to_offsets_go (join_by : String) : List String → Int → List (Int × Int)
  | [], _ => []
  | w :: ws, start =>
    let e : Int := start + (w.length : Int) - 1
    (start, e) :: words_to_offsets_go join_by ws (e + (join_by.length : Int) + 1)

/-- `TokenClassificationEvaluator.words_to_offsets(words, join_by)`
(lines 147–166): offsets of each word in `join_by.join(words)`,
end inclusive, starting from cursor 0. -/
def words_to_offsets (words : List String) (join_by : String) : List (Int × Int) :=
  words_to_offsets_go join_by words 0

/-- The inner `while` loop of `predictions_processor` (line 135):
advance the token cursor while
`prediction[token_index]["start"] < word_start`.  The cursor is the
suffix of the prediction list starting at `token_index`; reading
past the end of the list raises `IndexError` in Python, modelled as
`none`.  On normal exit it returns the prediction at the final
cursor position (which satisfies `¬ p.start < wordStart`) together
with the predictions after it. -/
def skipTokens (wordStart : Int) : List Pred → Option (Pred × List Pred)
  | [] => none
  | p :: rest =>
    if p.start < wordStart then
      skipTokens wordStart rest
    else
      some (p, rest)

/-- The per-row loop of `predictions_processor` (lines 132–141):
for each word offset in order, skip sub-tokens starting strictly
before the word, then append `"O"` when the current prediction
starts after the word start, the prediction's entity when it starts
exactly there, and (as in the source's `if`/`elif` chain) nothing at
all otherwise.  The cursor is threaded between words and never
reset: the next word resumes at the prediction the skip loop
stopped on (`p :: rest`).  `none` models an uncaught `IndexError`
from the skip loop. -/
def alignExample : List (Int × Int) → List Pred → Option (List String)
  | [], _ => some []
  | wordOffset :: restOffsets, prediction =>
    match skipTokens wordOffset.1 prediction with
    | none => none
    | some (p, rest) =>
      let emitted : List String :=
        if p.start > wordOffset.1 then ["O"]
        else if p.start = wordOffset.1 then [p.entity]
        else []
      match alignExample restOffsets (p :: rest) with
      | none => none
      | some labels => some (emitted ++ labels)

/-- The outer loop of `predictions_processor` (lines 126–143):
`for i, prediction in enumerate(predictions)`, per row computing
`words_to_offsets(words[i], join_by)` and aligning with the token
cursor at 0 (the whole prediction list).  `words[i]` out of range
raises `IndexError`, modelled as `none`. -/
def predictions_processor_go (words : List (List String)) (join_by : String) :
    List (List Pred) → Nat → Option (List (List String))
  | [], _ => some []
  | prediction :: rest, i =>
    match words[i]? with
    | none => none
    | some ws =>
      match alignExample (words_to_offsets ws join_by) prediction with
      | none => none
      | some pred_processed =>
        match predictions_processor_go words join_by rest (i + 1) with
        | none => none
        | some preds => some (pred_processed :: preds)

/-- `TokenClassificationEvaluator.predictions_processor(predictions, words, join_by)`
(lines 111–145).  The source returns the dict
`{"predictions": preds}`; the embedding returns the list `preds`
itself. -/
def predictions_processor (predictions : List (List Pred)) (words : List (List String))
    (join_by : String) : Option (List (List String)) :=
  predictions_processor_go words join_by predictions 0

/-- Modelled from the spec: the Label Aligner step of §4.2 as the
spec words it — per word, after skipping predictions whose start is
strictly less than the word's start offset, emit exactly one label:
the current prediction's entity when its start equals the word's
start, and the fallback `"O"` when its start is greater. -/
def alignSpec : List (Int × Int) → List Pred → Option (List String)
  | [], _ => some []
  | wordOffset :: restOffsets, prediction =>
    match skipTokens wordOffset.1 prediction with
    | none => none
    | some (p, rest) =>
      (alignSpec restOffsets (p :: rest)).map
        (fun labels => (if p.start = wordOffset.1 then p.entity else "O") :: labels)

/-- Character-level embedding of Python's `join_by.join(words)`, the
joined string built in `prepare_data` (line 195) whose character
positions `words_to_offsets` reconstructs. -/
def join_chars (join_by : String) : List String → List Char
  | [] => []
  | w :: ws =>
    match ws with
    | [] => w.toList
    | _ :: _ => w.toList ++ join_by.toList ++ join_chars join_by ws

/-- The projection of a prediction to the fields the aligner reads:
the `"start"` offset and the `"entity"` label. -/
def predView (p : Pred) : Int × String :=
  (p.start, p.entity)

/-! ### Lemmas about the skip loop and the aligner -/

/-- When the skip loop of line 135 exits normally, the prediction at
the final cursor position does not start before the word. -/
lemma skipTokens_stop {wordStart : Int} {prediction : List Pred} {p : Pred}
    {rest : List Pred} (h : skipTokens wordStart prediction = some (p, rest)) :
    ¬ p.start < wordStart := by
  induction prediction with
  | nil => simp [skipTokens] at h
  | cons q qs ih =>
    by_cases hq : q.start < wordStart
    · rw [skipTokens, if_pos hq] at h
      exact ih h
    · rw [skipTokens, if_neg hq] at h
      simp only [Option.some.injEq, Prod.mk.injEq] at h
      obtain ⟨rfl, rfl⟩ := h
      exact hq

/-- The `if`/`elif` chain of lines 138–141 appends exactly one label
per word: its silent third case (current prediction starting before
the word) is unreachable after the skip loop, so the source aligner
agrees with the one-label-per-word description of the spec. -/
lemma alignExample_eq_alignSpec :
    ∀ (offsets : List (Int × Int)) (prediction : List Pred),
      alignExample offsets prediction = alignSpec offsets prediction := by
  intro offsets
  induction offsets with
  | nil => intro pred; rfl
  | cons wo rest ih =>
    intro pred
    rw [alignExample, alignSpec]
    cases hskip : skipTokens wo.1 pred with
    | none => rfl
    | some pr =>
      obtain ⟨p, toks⟩ := pr
      have hge := skipTokens_stop hskip
      dsimp only
      rw [ih]
      cases hrec : alignSpec rest (p :: toks) with
      | none => simp
      | some labels =>
        by_cases hgt : p.start > wo.1
        · have hne : ¬ p.start = wo.1 := by omega
          simp [hgt, hne]
        · have heq : p.start = wo.1 := by omega
          simp [hgt, heq]

/-- Whenever the aligner returns a row, it holds one label per word
offset. -/
lemma alignExample_length :
    ∀ (offsets : List (Int × Int)) (prediction : List Pred) {out : List String},
      alignExample offsets prediction = some out → out.length = offsets.length := by
  intro offsets
  induction offsets with
  | nil =>
    intro pred out h
    rw [alignExample] at h
    simp only [Option.some.injEq] at h
    simp [← h]
  | cons wo rest ih =>
    intro pred out h
    rw [alignExample] at h
    cases hskip : skipTokens wo.1 pred with
    | none => rw [hskip] at h; simp at h
    | some pr =>
      obtain ⟨p, toks⟩ := pr
      rw [hskip] at h
      have hge := skipTokens_stop hskip
      simp only at h
      cases hrec : alignExample rest (p :: toks) with
      | none => rw [hrec] at h; simp at h
      | some labels =>
        rw [hrec] at h
        simp only [Option.some.injEq] at h
        subst h
        have hone : (if p.start > wo.1 then ["O"]
            else if p.start = wo.1 then [p.entity] else []).length = 1 := by
          by_cases hgt : p.start > wo.1
          · simp [hgt]
          · have heq : p.start = wo.1 := by omega
            simp [hgt, heq]
        simp only [List.length_append, List.length_cons, hone, ih _ hrec]
        omega

/-- `words_to_offsets` emits one span per word, from any cursor. -/
lemma words_to_offsets_go_length (join_by : String) :
    ∀ (ws : List String) (c : Int), (words_to_offsets_go join_by ws c).length = ws.length := by
  intro ws
  induction ws with
  | nil => intro c; rfl
  | cons w rest ih => intro c; simp [words_to_offsets_go, ih]

/-! ### Claim theorems: the aligner -/

/-- **C1**: for every example, assuming the prediction list is sorted
ascending by start offset and the cursor never runs past its end
(`alignExample` returns a row), the aligner emits exactly one label
per word span, namely: after skipping predictions whose start is
strictly less than the word's start offset, the current prediction's
entity when that prediction's start equals the word's start, and the
fallback `"O"` when it is greater — the behaviour captured verbatim
by `alignSpec`. -/
theorem c1_one_label_per_word_policy (offsets : List (Int × Int)) (prediction : List Pred)
    (out : List String)
    (hsorted : List.Pairwise (fun a b : Pred => a.start ≤ b.start) prediction)
    (hout : alignExample offsets prediction = some out) :
    alignSpec offsets prediction = some out ∧ out.length = offsets.length :=
  ⟨alignExample_eq_alignSpec offsets prediction ▸ hout, alignExample_length offsets prediction hout⟩

/-- Witness for **C1**: the spec's exact-match case — predictions
`[{start:0,entity:"B-LOC"},{start:4,entity:"I-LOC"},{start:9,entity:"O"}]`
against the offsets of `["New","York","is"]` joined by `" "` yield
`["B-LOC","I-LOC","O"]`. -/
theorem c1_one_label_per_word_policy_witness :
    alignSpec (words_to_offsets ["New", "York", "is"] " ")
        [⟨0, "B-LOC", 2, 0, "New"⟩, ⟨4, "I-LOC", 7, 0, "York"⟩, ⟨9, "O", 10, 0, "is"⟩] =
      some ["B-LOC", "I-LOC", "O"] ∧
    (["B-LOC", "I-LOC", "O"] : List String).length =
      (words_to_offsets ["New", "York", "is"] " ").length :=
  c1_one_label_per_word_policy (words_to_offsets ["New", "York", "is"] " ")
    [⟨0, "B-LOC", 2, 0, "New"⟩, ⟨4, "I-LOC", 7, 0, "York"⟩, ⟨9, "O", 10, 0, "is"⟩]
    ["B-LOC", "I-LOC", "O"] (by decide) (by decide)

/-- **C2** (evaluation at the failing input): the code does *not*
fail with an Alignment error identifying the example index.  On
predictions that are not sorted ascending by start offset
(`[{start:4},{start:0},{start:9}]`) it silently returns the
misaligned row `["O","I-LOC","O"]`; and on a prediction sequence too
short to cover all words it dies with a bare out-of-bounds
`IndexError` (modelled `none`), with no example index attached. -/
theorem c2_no_explicit_alignment_error :
    predictions_processor
        [[⟨4, "I-LOC", 7, 0, "York"⟩, ⟨0, "B-LOC", 2, 0, "New"⟩, ⟨9, "O", 10, 0, "is"⟩]]
        [["New", "York", "is"]] " " = some [["O", "I-LOC", "O"]] ∧
    alignExample (words_to_offsets ["New", "York"] " ") [⟨0, "B-LOC", 2, 0, "New"⟩] = none :=
  ⟨by decide, by decide⟩

/-- **C4**: whenever the aligner produces a result for an example, the
aligned label sequence has exactly the length of that example's word
list, whatever the prediction list is. -/
theorem c4_output_length (prediction : List Pred) (words : List String) (join_by : String)
    (out : List String)
    (hout : alignExample (words_to_offsets words join_by) prediction = some out) :
    out.length = words.length := by
  rw [alignExample_length _ _ hout, words_to_offsets, words_to_offsets_go_length]

/-- Witness for **C4** at a concrete input (two words, three
predictions). -/
theorem c4_output_length_witness :
    (["B-LOC", "I-LOC"] : List String).length = (["New", "York"] : List String).length :=
  c4_output_length
    [⟨0, "B-LOC", 2, 0, "New"⟩, ⟨4, "I-LOC", 7, 0, "York"⟩, ⟨9, "O", 10, 0, "is"⟩]
    ["New", "York"] " " ["B-LOC", "I-LOC"] (by decide)

/-- Row-by-row description of the outer loop of
`predictions_processor`: a successful run produces one row per
prediction list, each row being the aligner's output for the matching
word list. -/
lemma predictions_processor_go_spec (words : List (List String)) (join_by : String) :
    ∀ (preds : List (List Pred)) (i0 : Nat) (out : List (List String)),
      predictions_processor_go words join_by preds i0 = some out →
      out.length = preds.length ∧
      ∀ (k : Nat), k < preds.length →
        ∃ pd ws labels, preds[k]? = some pd ∧ words[i0 + k]? = some ws ∧
          alignExample (words_to_offsets ws join_by) pd = some labels ∧
          out[k]? = some labels := by
  intro preds
  induction preds with
  | nil =>
    intro i0 out h
    rw [predictions_processor_go] at h
    simp only [Option.some.injEq] at h
    subst h
    exact ⟨rfl, by intro k hk; simp at hk⟩
  | cons prediction rest ih =>
    intro i0 out h
    rw [predictions_processor_go] at h
    cases hw : words[i0]? with
    | none => rw [hw] at h; simp at h
    | some ws =>
      rw [hw] at h
      dsimp only at h
      cases halign : alignExample (words_to_offsets ws join_by) prediction with
      | none => rw [halign] at h; simp at h
      | some pred_processed =>
        rw [halign] at h
        dsimp only at h
        cases hrec : predictions_processor_go words join_by rest (i0 + 1) with
        | none => rw [hrec] at h; simp at h
        | some tail =>
          rw [hrec] at h
          simp only [Option.some.injEq] at h
          subst h
          obtain ⟨hlen, hrow⟩ := ih (i0 + 1) tail hrec
          refine ⟨by simp [hlen], ?_⟩
          intro k hk
          cases k with
          | zero =>
            exact ⟨prediction, ws, pred_processed, by simp, by simpa using hw, halign, by simp⟩
          | succ k =>
            obtain ⟨pd, ws', labels, h1, h2, h3, h4⟩ := hrow k (by simpa using hk)
            exact ⟨pd, ws', labels, by simpa using h1,
              by rw [show i0 + (k + 1) = i0 + 1 + k by omega]; exact h2, h3,
              by simpa using h4⟩

/-- **C10**: an example with an empty word list yields an empty label
list without the aligner ever touching that example's prediction
list — `alignExample` succeeds with `[]` for *every* prediction list
(in particular the empty one), and in a successful
`predictions_processor` run such an example's row is `[]`. -/
theorem c10_empty_word_list (prediction : List Pred) (join_by : String) :
    alignExample (words_to_offsets [] join_by) prediction = some [] ∧
    ∀ (preds : List (List Pred)) (words : List (List String)) (out : List (List String))
      (i : Nat), predictions_processor preds words join_by = some out →
      words[i]? = some ([] : List String) → i < preds.length →
      out[i]? = some ([] : List String) := by
  refine ⟨rfl, ?_⟩
  intro preds words out i h hwi hi
  obtain ⟨_, hrow⟩ := predictions_processor_go_spec words join_by preds 0 out h
  obtain ⟨pd, ws, labels, _, h2, h3, h4⟩ := hrow i hi
  rw [show 0 + i = i by omega, hwi] at h2
  simp only [Option.some.injEq] at h2
  subst h2
  rw [show alignExample (words_to_offsets [] join_by) pd = some [] from rfl] at h3
  simp only [Option.some.injEq] at h3
  subst h3
  exact h4

/-- Witness for **C10**: one example with no words and a nonempty
prediction list; the processor succeeds and the row is empty. -/
theorem c10_empty_word_list_witness :
    alignExample (words_to_offsets [] " ") [⟨0, "B-LOC", 2, 0, "New"⟩] = some [] ∧
    ([([] : List String)] : List (List String))[0]? = some ([] : List String) :=
  ⟨(c10_empty_word_list [⟨0, "B-LOC", 2, 0, "New"⟩] " ").1,
   (c10_empty_word_list [⟨0, "B-LOC", 2, 0, "New"⟩] " ").2
     [[⟨0, "B-LOC", 2, 0, "New"⟩]] [[]] [[]] 0 (by decide) (by decide) (by decide)⟩

/-! ### Lemmas about the word spans -/

/-- Every span emitted from cursor `c` starts at or after `c`. -/
lemma words_to_offsets_go_start_ge (join_by : String) :
    ∀ (ws : List String) (c : Int) (x : Int × Int),
      x ∈ words_to_offsets_go join_by ws c → c ≤ x.1 := by
  intro ws
  induction ws with
  | nil => intro c x hx; simp [words_to_offsets_go] at hx
  | cons w rest ih =>
    intro c x hx
    rw [words_to_offsets_go] at hx
    simp only [List.mem_cons] at hx
    rcases hx with rfl | hx
    · exact le_refl _
    · have := ih _ x hx
      omega

/-- Successive spans never touch: each span ends strictly before the
next span starts, and starts never decrease. -/
lemma words_to_offsets_go_pairwise (join_by : String) :
    ∀ (ws : List String) (c : Int),
      List.Pairwise (fun a b : Int × Int => a.2 < b.1 ∧ a.1 ≤ b.1)
        (words_to_offsets_go join_by ws c) := by
  intro ws
  induction ws with
  | nil => intro c; simp [words_to_offsets_go]
  | cons w rest ih =>
    intro c
    rw [words_to_offsets_go]
    refine List.Pairwise.cons ?_ (ih _)
    intro y hy
    have hge := words_to_offsets_go_start_ge join_by rest _ y hy
    constructor <;> omega

/-- Starts increase strictly from one span to the next as soon as the
separator is nonempty or every word is nonempty. -/
lemma words_to_offsets_go_strict (join_by : String) :
    ∀ (ws : List String) (c : Int),
      (0 < join_by.length ∨ ∀ w ∈ ws, 0 < w.length) →
      List.Pairwise (fun a b : Int × Int => a.1 < b.1) (words_to_offsets_go join_by ws c) := by
  intro ws
  induction ws with
  | nil => intro c _; simp [words_to_offsets_go]
  | cons w rest ih =>
    intro c hpos
    rw [words_to_offsets_go]
    refine List.Pairwise.cons ?_ (ih _ ?_)
    · intro y hy
      have hge := words_to_offsets_go_start_ge join_by rest _ y hy
      have hwj : 0 < (join_by.length : Int) + (w.length : Int) := by
        rcases hpos with hj | hw
        · have : (0 : Int) < join_by.length := by exact_mod_cast hj
          omega
        · have : 0 < w.length := hw w (by simp)
          have : (0 : Int) < w.length := by exact_mod_cast this
          omega
      omega
    · rcases hpos with hj | hw
      · exact Or.inl hj
      · exact Or.inr fun v hv => hw v (by simp [hv])

/-! ### Claim theorems: the word spans (C5) -/

/-- **C5** (counterexample): with two zero-length words and the empty
separator, `words_to_offsets` returns two spans with equal start
offset 0, so the spans are *not* strictly increasing in start offset
for every list of words and every separator. -/
theorem c5_counterexample :
    words_to_offsets ["", ""] "" = [(0, -1), (0, -1)] ∧
    ¬ List.Pairwise (fun a b : Int × Int => a.1 < b.1) (words_to_offsets ["", ""] "") :=
  ⟨by decide, by decide⟩

/-- **C5** (amended): the spans returned by `words_to_offsets` are
always pairwise non-overlapping (no character position lies in two
spans, end inclusive), and they are strictly increasing in start
offset provided the separator is nonempty or every word is
nonempty. -/
theorem c5_spans_disjoint_and_increasing (words : List String) (join_by : String) :
    List.Pairwise (fun a b : Int × Int =>
        ∀ x : Int, ¬ (a.1 ≤ x ∧ x ≤ a.2 ∧ b.1 ≤ x ∧ x ≤ b.2))
      (words_to_offsets words join_by) ∧
    ((0 < join_by.length ∨ ∀ w ∈ words, 0 < w.length) →
      List.Pairwise (fun a b : Int × Int => a.1 < b.1) (words_to_offsets words join_by)) := by
  constructor
  · refine (words_to_offsets_go_pairwise join_by words 0).imp ?_
    intro a b hab x
    omega
  · intro hpos
    exact words_to_offsets_go_strict join_by words 0 hpos

/-- Witness for **C5** (amended) with the spec's round-trip words and
a one-character separator. -/
theorem c5_spans_disjoint_and_increasing_witness :
    List.Pairwise (fun a b : Int × Int => a.1 < b.1)
      (words_to_offsets ["New", "York", "is"] " ") :=
  (c5_spans_disjoint_and_increasing ["New", "York", "is"] " ").2 (by decide)

/-- **C6**: a zero-length word at cursor position `c` contributes the
inverted/empty span `(c, c - 1)`, preserved as-is in the output with
no special-casing, and the cursor advances by exactly the separator
length for the remaining words; in particular a leading zero-length
word yields `(0, -1)`. -/
theorem c6_zero_length_word (join_by : String) (ws : List String) (c : Int) :
    words_to_offsets_go join_by ("" :: ws) c =
      (c, c - 1) :: words_to_offsets_go join_by ws (c + (join_by.length : Int)) ∧
    words_to_offsets ("" :: ws) join_by =
      (0, -1) :: words_to_offsets_go join_by ws (join_by.length : Int) := by
  have h0 : ("" : String).length = 0 := rfl
  constructor
  · rw [words_to_offsets_go, h0]
    norm_num
    congr 1
    omega
  · rw [words_to_offsets, words_to_offsets_go, h0]
    norm_num

/-- The span emitted for word `k` from cursor `c` delimits exactly
that word inside the joined string (positions shifted by the cursor):
its start is some `n ≥ c`, its end is `start + length - 1`, and the
`length` characters of the join at distance `n - c` are the word's
characters. -/
lemma words_to_offsets_go_substring (join_by : String) :
    ∀ (ws : List String) (c : Nat) (k : Nat) (s e : Int) (w : String),
      (words_to_offsets_go join_by ws (c : Int))[k]? = some (s, e) → ws[k]? = some w →
      ∃ n : Nat, c ≤ n ∧ s = (n : Int) ∧ e = s + (w.length : Int) - 1 ∧
        ((join_chars join_by ws).drop (n - c)).take w.length = w.toList := by
  intro ws
  induction ws with
  | nil => intro c k s e w h1 h2; simp at h2
  | cons w' ws' ih =>
    intro c k s e w h1 h2
    rw [words_to_offsets_go] at h1
    cases k with
    | zero =>
      simp only [List.getElem?_cons_zero, Option.some.injEq, Prod.mk.injEq] at h1 h2
      obtain ⟨rfl, rfl⟩ := h1
      subst h2
      refine ⟨c, le_refl c, rfl, rfl, ?_⟩
      rw [Nat.sub_self, List.drop_zero]
      cases ws' with
      | nil =>
        rw [join_chars]
        have hlen : w'.toList.length = w'.length := rfl
        rw [← hlen, List.take_length]
      | cons v vs =>
        rw [join_chars]
        have hlen : w'.toList.length = w'.length := rfl
        rw [List.append_assoc, ← hlen, List.take_left]
    | succ k =>
      simp only [List.getElem?_cons_succ] at h1 h2
      have hc : (c : Int) + (w'.length : Int) - 1 + (join_by.length : Int) + 1 =
          ((c + w'.length + join_by.length : Nat) : Int) := by push_cast; ring
      rw [hc] at h1
      obtain ⟨n, hn, hs, he, hsub⟩ := ih (c + w'.length + join_by.length) k s e w h1 h2
      refine ⟨n, by omega, hs, he, ?_⟩
      have hne : ws' ≠ [] := by
        intro hnil
        rw [hnil] at h2
        simp at h2
      cases ws' with
      | nil => exact absurd rfl hne
      | cons v vs =>
        rw [join_chars]
        have hsplit : n - c = (w'.toList ++ join_by.toList).length + (n - (c + w'.length + join_by.length)) := by
          have h1 : w'.toList.length = w'.length := rfl
          have h2 : join_by.toList.length = join_by.length := rfl
          simp only [List.length_append, h1, h2]
          omega
        rw [hsplit, List.drop_append]
        exact hsub

/-! ### Claim theorem: the offset reconstructor (C3) -/

/-- **C3**: for every word list and separator, `words_to_offsets`
returns one span per word, with non-decreasing starts, and each span
`(s, e)` delimits exactly the substring of `join_by.join(words)`
occupied by its word, end inclusive (`e = s + length - 1`, and the
`length` characters of the join starting at position `s` are the
word's characters); on `["New","York","is"]` with separator `" "`
the spans are `[(0,2),(4,7),(9,10)]`. -/
theorem c3_offsets_delimit_words (words : List String) (join_by : String) :
    (words_to_offsets words join_by).length = words.length ∧
    List.Pairwise (fun a b : Int × Int => a.1 ≤ b.1) (words_to_offsets words join_by) ∧
    (∀ (k : Nat) (s e : Int) (w : String),
      (words_to_offsets words join_by)[k]? = some (s, e) → words[k]? = some w →
      ∃ n : Nat, s = (n : Int) ∧ e = s + (w.length : Int) - 1 ∧
        ((join_chars join_by words).drop n).take w.length = w.toList) ∧
    words_to_offsets ["New", "York", "is"] " " = [(0, 2), (4, 7), (9, 10)] := by
  refine ⟨words_to_offsets_go_length join_by words 0, ?_, ?_, by decide⟩
  · exact (words_to_offsets_go_pairwise join_by words 0).imp fun hab => hab.2
  · intro k s e w h1 h2
    obtain ⟨n, _, hs, he, hsub⟩ :=
      words_to_offsets_go_substring join_by words 0 k s e w (by exact_mod_cast h1) h2
    exact ⟨n, hs, he, by simpa using hsub⟩

/-- Witness for **C3**: the span `(4, 7)` of `"York"` inside
`"New York is"`. -/
theorem c3_offsets_delimit_words_witness :
    ∃ n : Nat, (4 : Int) = (n : Int) ∧
      (7 : Int) = (4 : Int) + (("York" : String).length : Int) - 1 ∧
      ((join_chars " " ["New", "York", "is"]).drop n).take ("York" : String).length =
        ("York" : String).toList :=
  (c3_offsets_delimit_words ["New", "York", "is"] " ").2.2.1 1 4 7 "York" (by decide) (by decide)

/-! ### Lemmas: the aligner reads only start offsets, entities,
word lengths and the separator length -/

/-- The skip loop compares only start offsets: on prediction lists
agreeing on the `start` and `entity` fields it stops in the same way,
with current prediction and remaining suffix again agreeing on those
fields. -/
lemma skipTokens_congr {wordStart : Int} :
    ∀ {l l' : List Pred}, l.map predView = l'.map predView →
      Option.map (fun x : Pred × List Pred => (predView x.1, x.2.map predView))
          (skipTokens wordStart l) =
        Option.map (fun x : Pred × List Pred => (predView x.1, x.2.map predView))
          (skipTokens wordStart l') := by
  intro l
  induction l with
  | nil =>
    intro l' h
    have : l' = [] := by
      cases l' with
      | nil => rfl
      | cons q qs => simp at h
    rw [this]
  | cons p rest ih =>
    intro l' h
    cases l' with
    | nil => simp at h
    | cons p' rest' =>
      simp only [List.map_cons, List.cons.injEq] at h
      obtain ⟨hpv, hrest⟩ := h
      have hstart : p.start = p'.start := congrArg Prod.fst hpv
      rw [skipTokens, skipTokens, ← hstart]
      by_cases hlt : p.start < wordStart
      · rw [if_pos hlt, if_pos hlt]
        exact ih hrest
      · rw [if_neg hlt, if_neg hlt]
        simp [hpv, hrest]

/-- The aligner's output depends only on the `start` and `entity`
fields of the predictions. -/
lemma alignExample_congr :
    ∀ (offsets : List (Int × Int)) {l l' : List Pred},
      l.map predView = l'.map predView →
      alignExample offsets l = alignExample offsets l' := by
  intro offsets
  induction offsets with
  | nil => intro l l' h; rfl
  | cons wo rest ih =>
    intro l l' h
    have hs := @skipTokens_congr wo.1 _ _ h
    cases h1 : skipTokens wo.1 l with
    | none =>
      rw [h1] at hs
      cases h2 : skipTokens wo.1 l' with
      | none => rw [alignExample, alignExample, h1, h2]
      | some pr => rw [h2] at hs; simp at hs
    | some pr =>
      obtain ⟨p, toks⟩ := pr
      rw [h1] at hs
      cases h2 : skipTokens wo.1 l' with
      | none => rw [h2] at hs; simp at hs
      | some pr' =>
        obtain ⟨p', toks'⟩ := pr'
        rw [h2] at hs
        simp only [Option.map_some', Option.some.injEq, Prod.mk.injEq] at hs
        obtain ⟨hpv, htoks⟩ := hs
        have hstart : p.start = p'.start := congrArg Prod.fst hpv
        have hent : p.entity = p'.entity := congrArg Prod.snd hpv
        have hrec : alignExample rest (p :: toks) = alignExample rest (p' :: toks') :=
          ih (by simp only [List.map_cons]; rw [hpv, htoks])
        rw [alignExample, alignExample, h1, h2]
        dsimp only
        rw [hstart, hent, hrec]

/-- `words_to_offsets` reads only word lengths and the separator
length. -/
lemma words_to_offsets_go_congr (jb jb' : String) (hjb : jb.length = jb'.length) :
    ∀ (ws ws' : List String), ws.map String.length = ws'.map String.length →
      ∀ c : Int, words_to_offsets_go jb ws c = words_to_offsets_go jb' ws' c := by
  intro ws
  induction ws with
  | nil =>
    intro ws' h c
    have : ws' = [] := by
      cases ws' with
      | nil => rfl
      | cons v vs => simp at h
    rw [this]
    rfl
  | cons w rest ih =>
    intro ws' h c
    cases ws' with
    | nil => simp at h
    | cons v rest' =>
      simp only [List.map_cons, List.cons.injEq] at h
      obtain ⟨hlen, hrest⟩ := h
      rw [words_to_offsets_go, words_to_offsets_go, hlen, hjb, ih rest' hrest]

/-- The whole processor reads only start offsets, entity labels, word
lengths and the separator length. -/
lemma predictions_processor_go_congr (jb jb' : String) (hjb : jb.length = jb'.length)
    (words words' : List (List String))
    (hw : words.map (List.map String.length) = words'.map (List.map String.length)) :
    ∀ (preds preds' : List (List Pred)),
      preds.map (List.map predView) = preds'.map (List.map predView) →
      ∀ i : Nat,
        predictions_processor_go words jb preds i =
          predictions_processor_go words' jb' preds' i := by
  intro preds
  induction preds with
  | nil =>
    intro preds' h i
    have : preds' = [] := by
      cases preds' with
      | nil => rfl
      | cons q qs => simp at h
    rw [this]
    rfl
  | cons prediction rest ih =>
    intro preds' h i
    cases preds' with
    | nil => simp at h
    | cons prediction' rest' =>
      simp only [List.map_cons, List.cons.injEq] at h
      obtain ⟨hpred, hrest⟩ := h
      have hwi : words[i]?.map (List.map String.length) =
          words'[i]?.map (List.map String.length) := by
        rw [← List.getElem?_map, ← List.getElem?_map, hw]
      rw [predictions_processor_go, predictions_processor_go]
      cases hw1 : words[i]? with
      | none =>
        rw [hw1] at hwi
        cases hw2 : words'[i]? with
        | none => rfl
        | some ws' => rw [hw2] at hwi; simp at hwi
      | some ws =>
        rw [hw1] at hwi
        cases hw2 : words'[i]? with
        | none => rw [hw2] at hwi; simp at hwi
        | some ws' =>
          rw [hw2] at hwi
          simp only [Option.map_some', Option.some.injEq] at hwi
          have hoffs : words_to_offsets ws jb = words_to_offsets ws' jb' :=
            words_to_offsets_go_congr jb jb' hjb ws ws' hwi 0
          have halign : alignExample (words_to_offsets ws jb) prediction =
              alignExample (words_to_offsets ws' jb') prediction' := by
            rw [hoffs]
            exact alignExample_congr _ hpred
          dsimp only
          rw [halign, ih rest' hrest (i + 1)]

/-! ### Claim theorem: non-interference of unread fields (C9) -/

/-- **C9**: the output of `predictions_processor` depends only on
each prediction's `start` and `entity` fields, the length of each
word, and the length of the separator — two inputs agreeing on these
(word characters, prediction end offsets, scores and other fields
free to differ) produce identical label sequences. -/
theorem c9_reads_only_start_entity_and_lengths
    (predictions predictions' : List (List Pred)) (words words' : List (List String))
    (join_by join_by' : String)
    (hp : predictions.map (List.map predView) = predictions'.map (List.map predView))
    (hw : words.map (List.map String.length) = words'.map (List.map String.length))
    (hj : join_by.length = join_by'.length) :
    predictions_processor predictions words join_by =
      predictions_processor predictions' words' join_by' :=
  predictions_processor_go_congr join_by join_by' hj words words' hw
    predictions predictions' hp 0

/-- Witness for **C9**: same starts/entities/word lengths/separator
length, but different word characters, end offsets, scores, carried
word strings and separator character — identical output. -/
theorem c9_reads_only_start_entity_and_lengths_witness :
    predictions_processor [[⟨0, "B-LOC", 2, 0, "New"⟩, ⟨4, "I-LOC", 7, 0, "York"⟩]]
        [["New", "York"]] " " =
      predictions_processor [[⟨0, "B-LOC", 99, 7, "xxx"⟩, ⟨4, "I-LOC", 55, 3, "yyyy"⟩]]
        [["Abc", "Defg"]] "," :=
  c9_reads_only_start_entity_and_lengths
    [[⟨0, "B-LOC", 2, 0, "New"⟩, ⟨4, "I-LOC", 7, 0, "York"⟩]]
    [[⟨0, "B-LOC", 99, 7, "xxx"⟩, ⟨4, "I-LOC", 55, 3, "yyyy"⟩]]
    [["New", "York"]] [["Abc", "Defg"]] " " "," (by decide) (by decide) (by decide)

/-! ### Data preparation (`prepare_data`, lines 168–198) -/

/-- The feature declared for a dataset column, as `prepare_data`
inspects it (lines 171–185): a `Sequence` whose element feature is a
`ClassLabel` carrying its name table, a `Sequence` whose element
feature is a plain `Value` with a dtype string, or any non-`Sequence`
feature (e.g. a scalar column). -/
inductive FeatureKind where
  | sequenceClassLabel (names : List String)
  | sequenceValue (dtype : String)
  | nonSequence
  deriving DecidableEq, Repr

/-- A cell of the label column: an integer category code or a literal
string label. -/
inductive LabelCell where
  | intLab (id : Nat)
  | strLab (s : String)
  deriving DecidableEq, Repr

/-- The lookup `id_to_label[label_id]` of line 184, where
`id_to_label = {i: label for i, label in enumerate(label_list)}`: a
Python dict keyed by the integers `0..len(names)-1`, so any other key
(an out-of-range integer, or a non-integer cell) raises `KeyError`. -/
def id_to_label (names : List String) : LabelCell → Except String LabelCell
  | .intLab i =>
    match names[i]? with
    | some lab => .ok (.strLab lab)
    | none => .error "KeyError"
  | .strLab _ => .error "KeyError"

/-- The inner comprehension of line 184:
`[id_to_label[label_id] for label_id in label_ids]`, evaluated left
to right, aborting at the first `KeyError`. -/
def build_row (names : List String) : List LabelCell → Except String (List LabelCell)
  | [] => .ok []
  | cell :: cells =>
    match id_to_label names cell with
    | .error e => .error e
    | .ok lab =>
      match build_row names cells with
      | .error e => .error e
      | .ok labs => .ok (lab :: labs)

/-- The outer comprehension of line 184:
`[[...] for label_ids in data[label_column]]`. -/
def build_references (names : List String) :
    List (List LabelCell) → Except String (List (List LabelCell))
  | [] => .ok []
  | row :: rest =>
    match build_row names row with
    | .error e => .error e
    | .ok labs =>
      match build_references names rest with
      | .error e => .error e
      | .ok out => .ok (labs :: out)

/-- `TokenClassificationEvaluator.prepare_data` (lines 168–198),
restricted to the validation of the column features and the
computation of the gold references.  The `super().prepare_data` call
(column presence, outside src) is discharged by passing the column
features directly, and the construction of the joined pipeline
inputs (line 195) is not consumed by this claim.  Mirrors the
source order: first the `Sequence` check on both columns
(`ValueError`), then the `ClassLabel` mapping, then the
`dtype.startswith("int")` rejection (`NotImplementedError`), else
the labels pass through unchanged. -/
def prepare_data (input_feature label_feature : FeatureKind)
    (label_column : List (List LabelCell)) : Except String (List (List LabelCell)) :=
  if input_feature = .nonSequence ∨ label_feature = .nonSequence then
    .error "ValueError: TokenClassificationEvaluator expects the input and label columns to be provided as lists."
  else
    match label_feature with
    | .sequenceClassLabel names => build_references names label_column
    | .sequenceValue dtype =>
      if dtype.startsWith "int" then
        .error "NotImplementedError: References provided as integers, but the reference column is not a Sequence of ClassLabels."
      else
        .ok label_column
    | .nonSequence =>
      .error "ValueError: TokenClassificationEvaluator expects the input and label columns to be provided as lists."

/-- Agreement between a cell and the declared label feature, as the
datasets library guarantees it: a `ClassLabel` column holds in-range
integer codes, a non-integer `Value` column holds strings. -/
def cellOk (label_feature : FeatureKind) (cell : LabelCell) : Bool :=
  match label_feature, cell with
  | .sequenceClassLabel names, .intLab i => i < names.length
  | .sequenceClassLabel _, .strLab _ => false
  | .sequenceValue _, .strLab _ => true
  | .sequenceValue dtype, .intLab _ => dtype.startsWith "int"
  | .nonSequence, _ => true

/-- Every cell of the column agrees with the declared label
feature. -/
abbrev WellFormedColumn (label_feature : FeatureKind) (col : List (List LabelCell)) : Prop :=
  ∀ row ∈ col, ∀ cell ∈ row, cellOk label_feature cell = true

/-- On an in-range `ClassLabel` row the comprehension succeeds and
produces one string label per code. -/
lemma build_row_ok (names : List String) :
    ∀ (row : List LabelCell),
      (∀ cell ∈ row, cellOk (.sequenceClassLabel names) cell = true) →
      ∃ out, build_row names row = .ok out ∧ out.length = row.length ∧
        ∀ c ∈ out, ∃ s, c = LabelCell.strLab s := by
  intro row
  induction row with
  | nil => intro _; exact ⟨[], rfl, rfl, by simp⟩
  | cons cell cells ih =>
    intro h
    obtain ⟨out, hout, hlen, hstr⟩ := ih fun c hc => h c (by simp [hc])
    have hcell := h cell (by simp)
    cases cell with
    | strLab s => simp [cellOk] at hcell
    | intLab i =>
      have hi : i < names.length := by simpa [cellOk] using hcell
      obtain ⟨lab, hlab⟩ : ∃ lab, names[i]? = some lab :=
        ⟨names.get ⟨i, hi⟩, List.getElem?_eq_some_iff.mpr ⟨hi, rfl⟩⟩
      refine ⟨.strLab lab :: out, ?_, by simp [hlen], ?_⟩
      · rw [build_row, id_to_label, hlab, hout]
      · intro c hc
        rcases List.mem_cons.mp hc with rfl | hc
        · exact ⟨lab, rfl⟩
        · exact hstr c hc

/-- On a well-formed `ClassLabel` column the reference construction
succeeds, preserving the shape of the column and producing only
string labels. -/
lemma build_references_ok (names : List String) :
    ∀ (col : List (List LabelCell)), WellFormedColumn (.sequenceClassLabel names) col →
      ∃ out, build_references names col = .ok out ∧ out.length = col.length ∧
        (∀ k : Nat, out[k]?.map List.length = col[k]?.map List.length) ∧
        ∀ row ∈ out, ∀ c ∈ row, ∃ s, c = LabelCell.strLab s := by
  intro col
  induction col with
  | nil => intro _; exact ⟨[], rfl, rfl, by simp, by simp⟩
  | cons row rest ih =>
    intro h
    obtain ⟨out, hout, hlen, hshape, hstr⟩ := ih fun r hr => h r (by simp [hr])
    obtain ⟨labs, hlabs, hlablen, hlabstr⟩ := build_row_ok names row (h row (by simp))
    refine ⟨labs :: out, ?_, by simp [hlen], ?_, ?_⟩
    · rw [build_references, hlabs, hout]
    · intro k
      cases k with
      | zero => simp [hlablen]
      | succ k => simpa using hshape k
    · intro r hr
      rcases List.mem_cons.mp hr with rfl | hr
      · exact hlabstr
      · exact hstr r hr

/-! ### Claim theorem: data preparation (C8) -/

/-- **C8**: on feature/data-agreeing columns, `prepare_data` fails
exactly when the input or label column is not a per-example ordered
sequence, or when the label column holds integers without a
`ClassLabel` name table (`dtype` starting with `"int"`); otherwise it
returns the gold references as one ordered sequence of string labels
per example, of the same shape as the label column. -/
theorem c8_prepare_data_validation (input_feature label_feature : FeatureKind)
    (label_column : List (List LabelCell))
    (hwf : WellFormedColumn label_feature label_column) :
    ((∃ err, prepare_data input_feature label_feature label_column = .error err) ↔
      input_feature = .nonSequence ∨ label_feature = .nonSequence ∨
        ∃ dtype, label_feature = .sequenceValue dtype ∧ dtype.startsWith "int" = true) ∧
    ∀ refs, prepare_data input_feature label_feature label_column = .ok refs →
      refs.length = label_column.length ∧
      (∀ k : Nat, refs[k]?.map List.length = label_column[k]?.map List.length) ∧
      ∀ row ∈ refs, ∀ cell ∈ row, ∃ s, cell = LabelCell.strLab s := by
  by_cases hin : input_feature = FeatureKind.nonSequence
  · refine ⟨⟨fun _ => Or.inl hin, fun _ => ⟨_, by rw [prepare_data.eq_def, if_pos (Or.inl hin)]⟩⟩,
      fun refs hrefs => ?_⟩
    rw [prepare_data.eq_def, if_pos (Or.inl hin)] at hrefs
    cases hrefs
  · cases hlab : label_feature with
    | nonSequence =>
      refine ⟨⟨fun _ => Or.inr (Or.inl rfl), fun _ =>
        ⟨_, by rw [prepare_data.eq_def, if_pos (Or.inr rfl)]⟩⟩, fun refs hrefs => ?_⟩
      rw [prepare_data.eq_def, if_pos (Or.inr rfl)] at hrefs
      cases hrefs
    | sequenceClassLabel names =>
      rw [hlab] at hwf
      have hcond : ¬ (input_feature = FeatureKind.nonSequence ∨
          FeatureKind.sequenceClassLabel names = FeatureKind.nonSequence) := by
        simp [hin]
      obtain ⟨out, hout, hlen, hshape, hstr⟩ := build_references_ok names label_column hwf
      constructor
      · constructor
        · intro ⟨err, herr⟩
          rw [prepare_data.eq_def, if_neg hcond] at herr
          dsimp only at herr
          rw [hout] at herr
          cases herr
        · rintro (h | h | ⟨dtype, h, _⟩)
          · exact absurd h hin
          · cases h
          · cases h
      · intro refs hrefs
        rw [prepare_data.eq_def, if_neg hcond] at hrefs
        dsimp only at hrefs
        rw [hout] at hrefs
        cases hrefs
        exact ⟨hlen, hshape, hstr⟩
    | sequenceValue dtype =>
      rw [hlab] at hwf
      have hcond : ¬ (input_feature = FeatureKind.nonSequence ∨
          FeatureKind.sequenceValue dtype = FeatureKind.nonSequence) := by
        simp [hin]
      by_cases hint : dtype.startsWith "int"
      · refine ⟨⟨fun _ => Or.inr (Or.inr ⟨dtype, rfl, hint⟩), fun _ => ?_⟩, fun refs hrefs => ?_⟩
        · exact ⟨_, by rw [prepare_data.eq_def, if_neg hcond]; dsimp only; rw [if_pos hint]⟩
        · rw [prepare_data.eq_def, if_neg hcond] at hrefs
          dsimp only at hrefs
          rw [if_pos hint] at hrefs
          cases hrefs
      · constructor
        · constructor
          · intro ⟨err, herr⟩
            rw [prepare_data.eq_def, if_neg hcond] at herr
            dsimp only at herr
            rw [if_neg hint] at herr
            cases herr
          · rintro (h | h | ⟨dtype', heq, hint'⟩)
            · exact absurd h hin
            · cases h
            · cases heq
              exact absurd hint' hint
        · intro refs hrefs
          rw [prepare_data.eq_def, if_neg hcond] at hrefs
          dsimp only at hrefs
          rw [if_neg hint] at hrefs
          cases hrefs
          refine ⟨rfl, fun k => rfl, fun row hrow cell hcell => ?_⟩
          have hc := hwf row hrow cell hcell
          cases cell with
          | intLab i => rw [cellOk] at hc; exact absurd hc hint
          | strLab s => exact ⟨s, rfl⟩

/-- Witness for **C8**: a two-cell `ClassLabel` column resolved
through the name table `["O","B-LOC"]` into string labels. -/
theorem c8_prepare_data_validation_witness :
    ([[LabelCell.strLab "B-LOC", LabelCell.strLab "O"]] : List (List LabelCell)).length =
      ([[LabelCell.intLab 1, LabelCell.intLab 0]] : List (List LabelCell)).length ∧
    (∀ k : Nat,
      ([[LabelCell.strLab "B-LOC", LabelCell.strLab "O"]] :
          List (List LabelCell))[k]?.map List.length =
        ([[LabelCell.intLab 1, LabelCell.intLab 0]] :
          List (List LabelCell))[k]?.map List.length) ∧
    ∀ row ∈ ([[LabelCell.strLab "B-LOC", LabelCell.strLab "O"]] : List (List LabelCell)),
      ∀ cell ∈ row, ∃ s, cell = LabelCell.strLab s :=
  (c8_prepare_data_validation (.sequenceValue "string") (.sequenceClassLabel ["O", "B-LOC"])
      [[LabelCell.intLab 1, LabelCell.intLab 0]] (by decide)).2
    [[LabelCell.strLab "B-LOC", LabelCell.strLab "O"]] (by rfl)

/-! ### Caching orchestration (`compute`, lines 229–306) -/

/-- An invocation of the prediction collaborator (the transformers
pipeline) during one `compute` call: on the fixed canary dataset
(inside `compute_canary_hash`, line 224) or on the evaluation data
(line 284). -/
inductive PipeCall where
  | canary
  | data
  deriving DecidableEq, Repr

/-- Modelled from the spec: the deterministic external collaborators
of `compute` (spec §4.4, §6), which live outside src —
`Evaluator.call_pipeline`, `compute_metric`, the canary dataset, the
dataset fingerprint and the metric hash.  `canary_hash` is the hex
md5 digest of the dill-serialized canary predictions (line 225; in
reality never the empty string), `pipe_predictions` is what
`call_pipeline` returns on the evaluation data, `metric_fn` is the
metric collaborator applied to the processed predictions (references
and bootstrap parameters fixed), and a result mapping is a list of
key/value pairs (the result dict). -/
structure ComputeEnv where
  canary_hash : String
  data_fingerprint : String
  metric_hash : String
  cache_dir : String
  pipe_predictions : List (List Pred)
  tokens : List (List String)
  join_by : String
  metric_fn : List (List String) → List (String × String)
  perf_results : List (String × String)

/-- The cache file name of lines 272–274:
`{cache_dir}/cache-{canary_hash}-{fingerprint}-{metric_hash}.parquet`. -/
def cache_file_name (env : ComputeEnv) : String :=
  env.cache_dir ++ "/cache-" ++ env.canary_hash ++ "-" ++ env.data_fingerprint ++ "-" ++
    env.metric_hash ++ ".parquet"

/-- Modelled from the spec: the cache file collaborator (spec §6) — a
mapping from cache file names to stored result mappings;
`os.path.exists` is a successful lookup, a read returns the stored
mapping verbatim, `write_to_cache` prepends a binding. -/
def cache_lookup (name : String) :
    List (String × List (String × String)) → Option (List (String × String))
  | [] => none
  | (n, r) :: rest => if n = name then some r else cache_lookup name rest

/-- `TokenClassificationEvaluator.compute` (lines 229–306), caching
data flow.  With `cache_if_possible`, `compute_canary_hash` first
invokes the pipeline on the canary dataset (so `PipeCall.canary`
opens the invocation log of every cached call), then the cache file
name is derived and, if the file exists, its stored result is
returned immediately (lines 277–281).  Otherwise the pipeline runs
on the data, `predictions_processor` aligns (a Python exception
propagating as `none`), the metric and performance results are
merged, and — under line 303's truthiness test
`cache_if_possible and canary_hash`, i.e. the hash being nonempty —
the result is written to the cache.  Returns the result and
resulting cache state (`none` for an uncaught exception) plus the
log of pipeline invocations. -/
def compute (env : ComputeEnv) (cache : List (String × List (String × String)))
    (cache_if_possible : Bool) :
    Option (List (String × String) × List (String × List (String × String))) ×
      List PipeCall :=
  if cache_if_possible then
    match cache_lookup (cache_file_name env) cache with
    | some stored => (some (stored, cache), [PipeCall.canary])
    | none =>
      match predictions_processor env.pipe_predictions env.tokens env.join_by with
      | none => (none, [PipeCall.canary, PipeCall.data])
      | some preds =>
        let result := env.metric_fn preds ++ env.perf_results
        if env.canary_hash = "" then
          (some (result, cache), [PipeCall.canary, PipeCall.data])
        else
          (some (result, (cache_file_name env, result) :: cache),
            [PipeCall.canary, PipeCall.data])
  else
    match predictions_processor env.pipe_predictions env.tokens env.join_by with
    | none => (none, [PipeCall.data])
    | some preds => (some (env.metric_fn preds ++ env.perf_results, cache), [PipeCall.data])

/-- A concrete environment for witnessing the caching behaviour: one
example, one prediction, a metric reading the processed labels. -/
def exampleComputeEnv : ComputeEnv where
  canary_hash := "abc123"
  data_fingerprint := "fp"
  metric_hash := "mh"
  cache_dir := "cachedir"
  pipe_predictions := [[⟨0, "B-LOC", 2, 0, "New"⟩]]
  tokens := [["New"]]
  join_by := " "
  metric_fn := fun preds => [("accuracy", if preds = [["B-LOC"]] then "1.0" else "0.0")]
  perf_results := [("total_time_in_seconds", "1")]

/-! ### Claim theorems: cache idempotence (C7) -/

/-- **C7** (counterexample): the second `compute` call *does* invoke
the prediction collaborator — `compute_canary_hash` runs the
pipeline on the canary dataset before the cache is consulted, so the
second call's invocation log is `[canary]`, not empty (it merely
avoids the invocation on the evaluation data).  The returned result
is nonetheless bit-identical to the first call's, served from the
cache. -/
theorem c7_counterexample :
    compute exampleComputeEnv [] true =
      (some ([("accuracy", "1.0"), ("total_time_in_seconds", "1")],
        [("cachedir/cache-abc123-fp-mh.parquet",
          [("accuracy", "1.0"), ("total_time_in_seconds", "1")])]),
       [PipeCall.canary, PipeCall.data]) ∧
    compute exampleComputeEnv
        [("cachedir/cache-abc123-fp-mh.parquet",
          [("accuracy", "1.0"), ("total_time_in_seconds", "1")])] true =
      (some ([("accuracy", "1.0"), ("total_time_in_seconds", "1")],
        [("cachedir/cache-abc123-fp-mh.parquet",
          [("accuracy", "1.0"), ("total_time_in_seconds", "1")])]),
       [PipeCall.canary]) ∧
    ([PipeCall.canary] : List PipeCall) ≠ [] :=
  ⟨rfl, rfl, by decide⟩

/-- **C7** (amended): with caching enabled and a nonempty canary
hash, after any successful `compute` call a second call over the
same inputs returns the first call's result bit-identically, sourced
from the cache file, leaving the cache unchanged, and its only
pipeline invocation is the canary one used to derive the cache key —
it never invokes the prediction collaborator on the evaluation
data. -/
theorem c7_second_compute_from_cache (env : ComputeEnv)
    (cache cache1 : List (String × List (String × String)))
    (r1 : List (String × String)) (log1 : List PipeCall)
    (hhash : env.canary_hash ≠ "")
    (h1 : compute env cache true = (some (r1, cache1), log1)) :
    compute env cache1 true = (some (r1, cache1), [PipeCall.canary]) ∧
    cache_lookup (cache_file_name env) cache1 = some r1 := by
  rw [compute, if_pos rfl] at h1
  cases hlook : cache_lookup (cache_file_name env) cache with
  | some stored =>
    rw [hlook] at h1
    simp only [Prod.mk.injEq, Option.some.injEq] at h1
    obtain ⟨⟨hr, hc⟩, -⟩ := h1
    subst hr
    subst hc
    refine ⟨?_, hlook⟩
    rw [compute, if_pos rfl, hlook]
  | none =>
    rw [hlook] at h1
    cases hproc : predictions_processor env.pipe_predictions env.tokens env.join_by with
    | none => rw [hproc] at h1; simp at h1
    | some preds =>
      rw [hproc] at h1
      simp only [if_neg hhash, Prod.mk.injEq, Option.some.injEq] at h1
      obtain ⟨⟨hr, hc⟩, -⟩ := h1
      subst hr
      subst hc
      have hfind : cache_lookup (cache_file_name env)
          ((cache_file_name env, env.metric_fn preds ++ env.perf_results) :: cache) =
          some (env.metric_fn preds ++ env.perf_results) := by
        rw [cache_lookup, if_pos rfl]
      refine ⟨?_, hfind⟩
      rw [compute, if_pos rfl, hfind]

/-- Witness for **C7** (amended) at the concrete environment, with
the cache state produced by a first call from the empty cache. -/
theorem c7_second_compute_from_cache_witness :
    compute exampleComputeEnv
        [("cachedir/cache-abc123-fp-mh.parquet",
          [("accuracy", "1.0"), ("total_time_in_seconds", "1")])] true =
      (some ([("accuracy", "1.0"), ("total_time_in_seconds", "1")],
        [("cachedir/cache-abc123-fp-mh.parquet",
          [("accuracy", "1.0"), ("total_time_in_seconds", "1")])]),
       [PipeCall.canary]) ∧
    cache_lookup (cache_file_name exampleComputeEnv)
        [("cachedir/cache-abc123-fp-mh.parquet",
          [("accuracy", "1.0"), ("total_time_in_seconds", "1")])] =
      some [("accuracy", "1.0"), ("total_time_in_seconds", "1")] :=
  c7_second_compute_from_cache exampleComputeEnv []
    [("cachedir/cache-abc123-fp-mh.parquet",
      [("accuracy", "1.0"), ("total_time_in_seconds", "1")])]
    [("accuracy", "1.0"), ("total_time_in_seconds", "1")]
    [PipeCall.canary, PipeCall.data] (by decide) (by rfl)

end TokenClassification
